import Mathlib

/-!
Verification of the truetwt backend's timeline cache subsystem.

The definitions below are shallow embeddings of the TypeScript sources:
the in-process cache backend (src/infrastructure/cache/InMemoryCacheService.ts),
the Redis-backed key/value surface (RedisCacheService), mention extraction and
content validation (src/domain/value-objects/ContentValidation.ts), the post
ingestion pipeline and timeline read path (src/application/services/PostService.ts),
and the consistency/warmup service (TimelineCacheService).  Dates are modelled
as millisecond timestamps (Nat), JS arrays as lists, JS Maps as association
lists, and async calls that may reject as Except-valued oracles.
-/

namespace TrueTwt

/-- UserSummary of src/domain/entities/User.ts. -/
structure UserSummary where
  id : Nat
  username : String
deriving DecidableEq, Repr

/-- User entity of src/domain/entities/User.ts; Date fields as ms timestamps. -/
structure User where
  id : Nat
  username : String
  email : String
  passwordHash : String
  createdAt : Nat
  updatedAt : Nat
deriving DecidableEq, Repr

/-- Post entity of the domain model. -/
structure Post where
  id : Nat
  userId : Nat
  content : String
  createdAt : Nat
  updatedAt : Nat
  isDeleted : Bool
deriving DecidableEq, Repr

/-- TimelinePost: the denormalized projection placed in the cache. -/
structure TimelinePost where
  id : Nat
  userId : Nat
  username : String
  content : String
  createdAt : Nat
  mentions : List UserSummary
deriving DecidableEq, Repr

/-- PostWithUserAndMentions: a post row joined with its author summary and
resolved mentions, as returned by the SQLite post repository. -/
structure PostWithUserAndMentions where
  id : Nat
  userId : Nat
  content : String
  createdAt : Nat
  updatedAt : Nat
  isDeleted : Bool
  user : UserSummary
  mentions : List UserSummary
deriving DecidableEq, Repr

/-- Mention record handed to IMentionRepository.createBatch. -/
structure MentionRecord where
  postId : Nat
  mentionedUserId : Nat
deriving DecidableEq, Repr

/-- Errors surfaced by the service layer (DomainError subclasses together with
plain Errors thrown by validation and by the Pagination constructor). -/
inductive DomainError where
  | validationError (msg : String)
  | notFound (msg : String)
  | repoError
  | cacheError
deriving DecidableEq, Repr

instance {ε α : Type} [DecidableEq ε] [DecidableEq α] : DecidableEq (Except ε α) := fun a b =>
  match a, b with
  | .ok x, .ok y =>
    if h : x = y then isTrue (by rw [h]) else isFalse (fun hh => h (Except.ok.inj hh))
  | .ok _, .error _ => isFalse (fun hh => Except.noConfusion hh)
  | .error _, .ok _ => isFalse (fun hh => Except.noConfusion hh)
  | .error x, .error y =>
    if h : x = y then isTrue (by rw [h]) else isFalse (fun hh => h (Except.error.inj hh))

/-! ## Mention extraction and content validation -/

/-- Word characters of the mention pattern: letters, digits, underscore. -/
def isWordChar (c : Char) : Bool :=
  (c ≥ 'a' && c ≤ 'z') || (c ≥ 'A' && c ≤ 'Z') || (c ≥ '0' && c ≤ '9') || c = '_'

/-- Fuelled scanner computing all left-to-right, non-overlapping matches of the
global regular expression for mentions (an at-sign followed by one or more word
characters); each match is returned without its leading marker, exactly as
`match.substring(1)` does. -/
def matchRunsF : Nat → List Char → List (List Char)
  | 0, _ => []
  | _ + 1, [] => []
  | fuel + 1, c :: cs =>
    if c = '@' then
      let run := cs.takeWhile isWordChar
      if run.isEmpty then matchRunsF fuel cs
      else run :: matchRunsF fuel (cs.dropWhile isWordChar)
    else matchRunsF fuel cs

/-- Deduplication keeping the first occurrence of each element, which is the
insertion-order semantics of spreading a JS Set. -/
def dedupFirst (l : List String) : List String :=
  l.foldl (fun acc x => if acc.contains x then acc else acc ++ [x]) []

/-- ContentValidation.extractMentions: collect the mention matches, strip the
marker, deduplicate preserving first-seen order. -/
def extractMentions (content : String) : List String :=
  dedupFirst ((matchRunsF content.data.length content.data).map (fun run => String.mk run))

/-- String.prototype.trim: strip whitespace from both ends (modelled over the
character list). -/
def jsTrim (content : String) : String :=
  String.mk (((content.data.dropWhile Char.isWhitespace).reverse.dropWhile
    Char.isWhitespace).reverse)

/-- ContentValidation.validatePostContent: content nonempty after trimming,
at most 280 characters, at most 10 unique mention candidates. -/
def validatePostContent (content : String) : Except DomainError Unit :=
  if (jsTrim content).length = 0 then
    .error (.validationError "Post content cannot be empty")
  else if content.length > 280 then
    .error (.validationError "Post content cannot exceed 280 characters")
  else if (extractMentions content).length > 10 then
    .error (.validationError "Post cannot contain more than 10 mentions")
  else .ok ()

/-! ## In-process cache backend (InMemoryCacheService) -/

/-- One element of the in-memory timeline array: the post together with its
score, which addToTimeline sets to the post's creation timestamp. -/
structure TimelineEntry where
  post : TimelinePost
  score : Nat
deriving DecidableEq, Repr

/-- Order imposed by the sort comparator of addToTimeline (descending score). -/
def entryGE (a b : TimelineEntry) : Prop := b.score ≤ a.score

instance : DecidableRel entryGE :=
  fun a b => inferInstanceAs (Decidable (b.score ≤ a.score))

instance : IsTotal TimelineEntry entryGE :=
  ⟨fun a b => Nat.le_total b.score a.score⟩

instance : IsTrans TimelineEntry entryGE :=
  ⟨fun _ _ _ h1 h2 => Nat.le_trans h2 h1⟩

/-- CacheItem of InMemoryCacheService: value plus optional absolute expiry. -/
structure CacheItem where
  value : String
  expiresAt : Option Nat
deriving DecidableEq, Repr

/-- State of an InMemoryCacheService instance: the generic key/value map, the
ordered timeline array, and the configured size bound. -/
structure InMemoryCache where
  cache : List (String × CacheItem)
  timeline : List TimelineEntry
  maxTimelineSize : Nat
deriving DecidableEq, Repr

/-- Freshly constructed service with the given bound. -/
def emptyCache (maxTimelineSize : Nat) : InMemoryCache :=
  ⟨[], [], maxTimelineSize⟩

/-- JS Map.set semantics on an association list: replace in place when the key
is present, append otherwise. -/
def assocSet {β : Type} : List (String × β) → String → β → List (String × β)
  | [], k, v => [(k, v)]
  | (k1, v1) :: rest, k, v =>
    if k1 = k then (k, v) :: rest else (k1, v1) :: assocSet rest k v

/-- JS Map.get semantics. -/
def assocGet {β : Type} : List (String × β) → String → Option β
  | [], _ => none
  | (k1, v1) :: rest, k => if k1 = k then some v1 else assocGet rest k

/-- JS Map.delete semantics. -/
def assocDelete {β : Type} : List (String × β) → String → List (String × β)
  | [], _ => []
  | (k1, v1) :: rest, k => if k1 = k then rest else (k1, v1) :: assocDelete rest k

/-- InMemoryCacheService.addToTimeline: push the entry scored by the post's
creation timestamp, re-sort the array with the stable comparator sort on
descending score, and truncate to maxTimelineSize when the bound is exceeded.
The ECMAScript stable sort under this comparator coincides with the stable
insertion sort for the relation entryGE. -/
def addToTimeline (st : InMemoryCache) (post : TimelinePost) : InMemoryCache :=
  let score := post.createdAt
  let sorted := List.insertionSort entryGE (st.timeline ++ [⟨post, score⟩])
  let tl := if sorted.length > st.maxTimelineSize then sorted.take st.maxTimelineSize else sorted
  { st with timeline := tl }

/-- Index arithmetic of Array.prototype.slice for possibly negative bounds. -/
def jsSliceIndex (len : Nat) (i : Int) : Nat :=
  if i < 0 then ((len : Int) + i).toNat else min i.toNat len

/-- Array.prototype.slice(a, b). -/
def jsSlice {α : Type} (l : List α) (a b : Int) : List α :=
  (l.take (jsSliceIndex l.length b)).drop (jsSliceIndex l.length a)

/-- InMemoryCacheService.getTimeline(start, stop): endIndex is the inclusive
stop plus one clamped to the length, startIndex is start clamped to endIndex,
and the slice is projected to the posts. -/
def getTimeline (st : InMemoryCache) (start stop : Int) : List TimelinePost :=
  let endIndex : Int := min (stop + 1) (st.timeline.length : Int)
  let startIndex : Int := min start endIndex
  (jsSlice st.timeline startIndex endIndex).map (fun e => e.post)

/-- findIndex followed by splice(index, 1): drop the first element satisfying
the predicate; the list is unchanged when none does. -/
def removeFirst {α : Type} (p : α → Bool) : List α → List α
  | [] => []
  | x :: xs => if p x then xs else x :: removeFirst p xs

/-- Match predicate of removeFromTimeline: the entry's post id and score both
equal the requested pair. -/
def entryMatches (postId timestamp : Nat) (e : TimelineEntry) : Bool :=
  e.post.id == postId && e.score == timestamp

/-- InMemoryCacheService.removeFromTimeline. -/
def removeFromTimeline (st : InMemoryCache) (postId timestamp : Nat) : InMemoryCache :=
  { st with timeline := removeFirst (entryMatches postId timestamp) st.timeline }

/-- InMemoryCacheService.getTimelineCount. -/
def getTimelineCount (st : InMemoryCache) : Nat :=
  st.timeline.length

/-- InMemoryCacheService.clearTimeline. -/
def clearTimeline (st : InMemoryCache) : InMemoryCache :=
  { st with timeline := [] }

/-- InMemoryCacheService.set at instant `now`: the expiry is populated only for
a truthy ttlSeconds, so both an absent ttl and a zero ttl store an item without
expiry; a previous entry under the same key is replaced wholesale. -/
def cacheSet (st : InMemoryCache) (key value : String) (ttlSeconds : Option Nat)
    (now : Nat) : InMemoryCache :=
  let item : CacheItem :=
    { value := value
      expiresAt :=
        match ttlSeconds with
        | some t => if t ≠ 0 then some (now + t * 1000) else none
        | none => none }
  { st with cache := assocSet st.cache key item }

/-- InMemoryCacheService.get at instant `now`: an item whose expiry lies
strictly in the past is deleted and reported absent. -/
def cacheGet (st : InMemoryCache) (key : String) (now : Nat) :
    Option String × InMemoryCache :=
  match assocGet st.cache key with
  | none => (none, st)
  | some item =>
    match item.expiresAt with
    | some e =>
      if now > e then (none, { st with cache := assocDelete st.cache key })
      else (some item.value, st)
    | none => (some item.value, st)

/-- InMemoryCacheService.delete. -/
def cacheDelete (st : InMemoryCache) (key : String) : InMemoryCache :=
  { st with cache := assocDelete st.cache key }

/-- InMemoryCacheService.flush. -/
def cacheFlush (st : InMemoryCache) : InMemoryCache :=
  { st with cache := [], timeline := [] }

/-! ## Redis-backed key/value surface (RedisCacheService.set / get) -/

/-- RedisCacheService.set against a modelled Redis server state (a map from
keys to a value and an optional absolute expiry): a truthy ttl issues SETEX,
which stores the value with a server-side expiry; otherwise a plain SET stores
the value with no expiry and clears any previous one. -/
def redisSet (kv : List (String × (String × Option Nat))) (key value : String)
    (ttlSeconds : Option Nat) (now : Nat) : List (String × (String × Option Nat)) :=
  match ttlSeconds with
  | some t =>
    if t ≠ 0 then assocSet kv key (value, some (now + t * 1000))
    else assocSet kv key (value, none)
  | none => assocSet kv key (value, none)

/-- RedisCacheService.get against the modelled server: a key at or past its
expiry instant is gone. -/
def redisGet (kv : List (String × (String × Option Nat))) (key : String)
    (now : Nat) : Option String :=
  match assocGet kv key with
  | none => none
  | some (v, none) => some v
  | some (v, some e) => if now < e then some v else none

/-! ## Durable store model (SQLitePostRepository) -/

/-- Descending order on stored rows by created_at, as ORDER BY created_at DESC
produces (the model fixes the stable order on ties). -/
def rowGE (a b : PostWithUserAndMentions) : Prop := b.createdAt ≤ a.createdAt

instance : DecidableRel rowGE :=
  fun a b => inferInstanceAs (Decidable (b.createdAt ≤ a.createdAt))

instance : IsTotal PostWithUserAndMentions rowGE :=
  ⟨fun a b => Nat.le_total b.createdAt a.createdAt⟩

instance : IsTrans PostWithUserAndMentions rowGE :=
  ⟨fun _ _ _ h1 h2 => Nat.le_trans h2 h1⟩

/-- Pagination value object: the constructor validates page ≥ 1 and
1 ≤ limit ≤ 100 and precomputes the offset. -/
structure Pagination where
  page : Int
  limit : Int
  offset : Int
deriving DecidableEq, Repr

/-- Pagination constructor, throwing outside the accepted bounds. -/
def mkPagination (page limit : Int) : Except DomainError Pagination :=
  if page < 1 then .error (.validationError "Page must be greater than 0")
  else if limit < 1 ∨ limit > 100 then
    .error (.validationError "Limit must be between 1 and 100")
  else .ok ⟨page, limit, (page - 1) * limit⟩

/-- SQLitePostRepository.findAll over a store modelled as the list of joined
rows: the non-deleted rows newest first, paged by LIMIT/OFFSET, together with
the non-deleted total. -/
def findAllModel (store : List PostWithUserAndMentions) (pg : Pagination) :
    List PostWithUserAndMentions × Nat :=
  let live := store.filter (fun p => !p.isDeleted)
  let ordered := List.insertionSort rowGE live
  ((ordered.drop pg.offset.toNat).take pg.limit.toNat, live.length)

/-- SQLitePostRepository.count: non-deleted rows. -/
def countModel (store : List PostWithUserAndMentions) : Nat :=
  (store.filter (fun p => !p.isDeleted)).length

/-- SQLitePostRepository.exists: a row with this id is present and not
soft-deleted. -/
def existsModel (store : List PostWithUserAndMentions) (id : Nat) : Bool :=
  store.any (fun p => p.id == id && !p.isDeleted)

/-- Modelled from the spec: the SQLite implementation of
IUserRepository.findByUsernames is not among the sources (only its interface,
tests and caller are).  Per the spec, the batch lookup returns only the subset
of candidates that correspond to existing users, silently dropping unknown
handles; the user table is modelled as a list of summaries. -/
def findByUsernamesModel (table : List UserSummary) (usernames : List String) :
    List UserSummary :=
  table.filter (fun u => usernames.contains u.username)

/-! ## Ingestion pipeline (PostService.createPost) -/

/-- Collaborators of PostService.createPost; each call may reject. -/
structure PostServiceEnv where
  findById : Nat → Except DomainError (Option User)
  create : Nat → String → Except DomainError Post
  findByUsernames : List String → Except DomainError (List UserSummary)
  createBatch : List MentionRecord → Except DomainError Unit
  addToTimeline : TimelinePost → Except DomainError Unit

/-- Tail of createPost shared by all mention branches: build the timeline
projection, attempt the best-effort cache insert whose outcome the try/catch
discards either way, and return the created post. -/
def finishCreatePost (env : PostServiceEnv) (user : User) (post : Post)
    (mentions : List UserSummary) (log : List (List String)) :
    Except DomainError PostWithUserAndMentions × List (List String) :=
  let timelinePost : TimelinePost :=
    { id := post.id, userId := post.userId, username := user.username
      content := post.content, createdAt := post.createdAt, mentions := mentions }
  let result : PostWithUserAndMentions :=
    { id := post.id, userId := post.userId, content := post.content
      createdAt := post.createdAt, updatedAt := post.updatedAt
      isDeleted := post.isDeleted
      user := { id := user.id, username := user.username }
      mentions := mentions }
  match env.addToTimeline timelinePost with
  | .ok _ => (.ok result, log)
  | .error _ => (.ok result, log)

/-- PostService.createPost.  Alongside the outcome it returns the list of
argument lists passed to userRepository.findByUsernames, recorded at the call
site, so the batch-resolution contract is observable in the model. -/
def createPost (env : PostServiceEnv) (userId : Nat) (content : String) :
    Except DomainError PostWithUserAndMentions × List (List String) :=
  match validatePostContent content with
  | .error e => (.error e, [])
  | .ok _ =>
  match env.findById userId with
  | .error e => (.error e, [])
  | .ok none => (.error (.notFound "User not found"), [])
  | .ok (some user) =>
  match env.create userId content with
  | .error e => (.error e, [])
  | .ok post =>
  let mentionUsernames := extractMentions content
  if mentionUsernames.length > 0 then
    match env.findByUsernames mentionUsernames with
    | .error e => (.error e, [mentionUsernames])
    | .ok mentionedUsers =>
      if mentionedUsers.length > 0 then
        match env.createBatch (mentionedUsers.map (fun u => ⟨post.id, u.id⟩)) with
        | .error e => (.error e, [mentionUsernames])
        | .ok _ => finishCreatePost env user post mentionedUsers [mentionUsernames]
      else finishCreatePost env user post [] [mentionUsernames]
  else finishCreatePost env user post [] []

/-! ## Timeline read path (PostService.getTimeline) -/

/-- Collaborators of PostService.getTimeline: the cache calls may reject, the
durable store is the given list of rows. -/
structure TimelineReadEnv where
  cacheGetTimeline : Int → Int → Except DomainError (List TimelinePost)
  cacheCount : Except DomainError Nat
  store : List PostWithUserAndMentions

/-- Result shape of PostService.getTimeline. -/
structure TimelineReadResult where
  posts : List TimelinePost
  total : Nat
  hasMore : Bool
deriving DecidableEq, Repr

/-- Durable fallback of PostService.getTimeline: paginate the store and reshape
the rows into the timeline projection. -/
def timelineDbFallback (env : TimelineReadEnv) (page limit : Int) :
    Except DomainError TimelineReadResult :=
  match mkPagination page limit with
  | .error e => .error e
  | .ok pg =>
    let found := findAllModel env.store pg
    .ok { posts := found.1.map (fun p =>
            { id := p.id, userId := p.userId, username := p.user.username
              content := p.content, createdAt := p.createdAt, mentions := p.mentions })
          total := found.2
          hasMore := decide (page * limit < (found.2 : Int)) }

/-- PostService.getTimeline(page, limit): compute the rank window from
page/limit; a non-empty cache answer is served with the cache's own count; an
empty answer, or a rejection anywhere inside the try block, falls through to
the durable fallback. -/
def serviceGetTimeline (env : TimelineReadEnv) (page limit : Int) :
    Except DomainError TimelineReadResult :=
  let offset := (page - 1) * limit
  match env.cacheGetTimeline offset (offset + limit - 1) with
  | .error _ => timelineDbFallback env page limit
  | .ok cachedPosts =>
    if cachedPosts.length > 0 then
      match env.cacheCount with
      | .error _ => timelineDbFallback env page limit
      | .ok totalCached =>
        .ok { posts := cachedPosts, total := totalCached
              hasMore := decide (offset + limit < (totalCached : Int)) }
    else timelineDbFallback env page limit

/-! ## Consistency and warmup service (TimelineCacheService) -/

/-- Projection of a stored row to the timeline entry shape, as built by the
warmup replay and the read fallback. -/
def toTimelinePost (p : PostWithUserAndMentions) : TimelinePost :=
  { id := p.id, userId := p.userId, username := p.user.username
    content := p.content, createdAt := p.createdAt, mentions := p.mentions }

/-- Per-item replay loop of warmupCache: each rejected addToTimeline is
counted as an error and never rethrown; the result is the final cache state
with (processed, errors). -/
def warmupLoop {σ : Type} (add : TimelinePost → σ → Except DomainError σ) :
    List PostWithUserAndMentions → σ → σ × Nat × Nat
  | [], st => (st, 0, 0)
  | p :: ps, st =>
    match add (toTimelinePost p) st with
    | .ok st1 =>
      let r := warmupLoop add ps st1
      (r.1, r.2.1 + 1, r.2.2)
    | .error _ =>
      let r := warmupLoop add ps st
      (r.1, r.2.1, r.2.2 + 1)

/-- TimelineCacheService.warmupCache(maxPosts) over an abstract cache backend:
clear the cache, construct Pagination(1, maxPosts) (whose constructor throws
outside 1..100, and the surrounding catch rethrows), load the newest
non-deleted posts, and replay them oldest-first counting per-item successes
and failures. -/
def warmupCache {σ : Type} (clear : σ → Except DomainError σ)
    (add : TimelinePost → σ → Except DomainError σ)
    (store : List PostWithUserAndMentions) (maxPosts : Nat) (st : σ) :
    Except DomainError (σ × Nat × Nat) :=
  match clear st with
  | .error e => .error e
  | .ok st1 =>
    match mkPagination 1 (maxPosts : Int) with
    | .error e => .error e
    | .ok pg => .ok (warmupLoop add ((findAllModel store pg).1.reverse) st1)

/-- The in-process backend's clearTimeline as a warmup oracle: never rejects. -/
def inMemClear (st : InMemoryCache) : Except DomainError InMemoryCache :=
  .ok (clearTimeline st)

/-- The in-process backend's addToTimeline as a warmup oracle: never rejects. -/
def inMemAdd (tp : TimelinePost) (st : InMemoryCache) : Except DomainError InMemoryCache :=
  .ok (addToTimeline st tp)

/-- Report of TimelineCacheService.validateCacheConsistency. -/
structure ConsistencyReport where
  consistent : Bool
  totalCached : Nat
  totalDatabase : Nat
  discrepancies : Nat
deriving DecidableEq, Repr

/-- TimelineCacheService.validateCacheConsistency(sampleSize) against the
in-process backend and the modelled durable store: count both sides, sample
the first sampleSize cached posts, count the sampled posts missing from the
store, and declare consistency exactly when there are no discrepancies and the
totals differ by fewer than 10. -/
def validateCacheConsistency (st : InMemoryCache)
    (store : List PostWithUserAndMentions) (sampleSize : Nat) : ConsistencyReport :=
  let totalCached := getTimelineCount st
  let totalDatabase := countModel store
  let cachedPosts := getTimeline st 0 ((sampleSize : Int) - 1)
  let discrepancies := (cachedPosts.filter (fun p => !existsModel store p.id)).length
  { consistent :=
      decide (discrepancies = 0 ∧ ((totalCached : Int) - (totalDatabase : Int)).natAbs < 10)
    totalCached := totalCached
    totalDatabase := totalDatabase
    discrepancies := discrepancies }

/-! ## Client operations against the in-process backend -/

/-- One state-affecting client call against the in-process backend. -/
inductive CacheOp where
  | add (post : TimelinePost)
  | remove (postId timestamp : Nat)
  | clear
  | setKV (key value : String) (ttlSeconds : Option Nat) (now : Nat)
  | getKV (key : String) (now : Nat)
  | deleteKV (key : String)
  | flush
deriving Repr

/-- Apply one client call to the backend state. -/
def applyOp (st : InMemoryCache) : CacheOp → InMemoryCache
  | .add p => addToTimeline st p
  | .remove pid ts => removeFromTimeline st pid ts
  | .clear => clearTimeline st
  | .setKV k v t now => cacheSet st k v t now
  | .getKV k now => (cacheGet st k now).2
  | .deleteKV k => cacheDelete st k
  | .flush => cacheFlush st

/-- Run a sequence of client calls from a fresh backend instance. -/
def runOps (maxTimelineSize : Nat) (ops : List CacheOp) : InMemoryCache :=
  ops.foldl applyOp (emptyCache maxTimelineSize)

/-! ## Helper lemmas -/

theorem assocGet_assocSet {β : Type} (m : List (String × β)) (k : String) (v : β) :
    assocGet (assocSet m k v) k = some v := by
  induction m with
  | nil => simp [assocSet, assocGet]
  | cons hd tl ih =>
    obtain ⟨k1, v1⟩ := hd
    by_cases h : k1 = k
    · simp [assocSet, assocGet, h]
    · simp [assocSet, assocGet, h, ih]

/-! ## C5: the consistency flag -/

/-- C5: the report of validateCacheConsistency(sampleSize) has consistent =
true exactly when the number of sampled cached posts missing from the durable
store is zero and the absolute difference between the cached total and the
durable total is strictly below 10. -/
theorem consistency_flag_iff (st : InMemoryCache)
    (store : List PostWithUserAndMentions) (sampleSize : Nat) :
    (validateCacheConsistency st store sampleSize).consistent = true ↔
      (((getTimeline st 0 ((sampleSize : Int) - 1)).filter
          (fun p => !existsModel store p.id)).length = 0 ∧
        ((getTimelineCount st : Int) - (countModel store : Int)).natAbs < 10) := by
  unfold validateCacheConsistency
  exact decide_eq_true_iff

/-! ## C8: TTL semantics of the generic key/value surface -/

/-- C8: after set(k, v, t) with a positive ttl at instant now0, get(k) before
the expiry instant returns v and after it returns absent; re-setting the same
key replaces both the value and the expiry, so reads are governed by the new
TTL alone. -/
theorem generic_cache_ttl (st : InMemoryCache) (k v v2 : String)
    (t t2 now0 now1 now2 now3 : Nat) (ht : 0 < t) (ht2 : 0 < t2) :
    (now1 < now0 + t * 1000 →
      (cacheGet (cacheSet st k v (some t) now0) k now1).1 = some v) ∧
    (now1 > now0 + t * 1000 →
      (cacheGet (cacheSet st k v (some t) now0) k now1).1 = none) ∧
    assocGet (cacheSet (cacheSet st k v (some t) now0) k v2 (some t2) now2).cache k =
      some ⟨v2, some (now2 + t2 * 1000)⟩ ∧
    (now3 < now2 + t2 * 1000 →
      (cacheGet (cacheSet (cacheSet st k v (some t) now0) k v2 (some t2) now2) k now3).1 =
        some v2) := by
  have htne : t ≠ 0 := Nat.pos_iff_ne_zero.mp ht
  have ht2ne : t2 ≠ 0 := Nat.pos_iff_ne_zero.mp ht2
  have hset1 : (cacheSet st k v (some t) now0).cache =
      assocSet st.cache k ⟨v, some (now0 + t * 1000)⟩ := by
    simp [cacheSet, htne]
  have hset2 : (cacheSet (cacheSet st k v (some t) now0) k v2 (some t2) now2).cache =
      assocSet (cacheSet st k v (some t) now0).cache k ⟨v2, some (now2 + t2 * 1000)⟩ := by
    simp [cacheSet, ht2ne]
  refine ⟨?_, ?_, ?_, ?_⟩
  · intro hlt
    unfold cacheGet
    rw [hset1, assocGet_assocSet]
    simp only
    rw [if_neg (by omega)]
  · intro hgt
    unfold cacheGet
    rw [hset1, assocGet_assocSet]
    simp only
    rw [if_pos (by omega)]
  · rw [hset2, assocGet_assocSet]
  · intro hlt
    unfold cacheGet
    rw [hset2, assocGet_assocSet]
    simp only
    rw [if_neg (by omega)]

/-- Witness for C8 at concrete instants. -/
theorem generic_cache_ttl_witness :
    (10 < 0 + 1 * 1000 →
      (cacheGet (cacheSet (emptyCache 5) "k" "a" (some 1) 0) "k" 10).1 = some "a") ∧
    (10 > 0 + 1 * 1000 →
      (cacheGet (cacheSet (emptyCache 5) "k" "a" (some 1) 0) "k" 10).1 = none) ∧
    assocGet (cacheSet (cacheSet (emptyCache 5) "k" "a" (some 1) 0) "k" "b" (some 2) 5).cache "k" =
      some ⟨"b", some (5 + 2 * 1000)⟩ ∧
    (6 < 5 + 2 * 1000 →
      (cacheGet (cacheSet (cacheSet (emptyCache 5) "k" "a" (some 1) 0) "k" "b" (some 2) 5) "k" 6).1 =
        some "b") :=
  generic_cache_ttl (emptyCache 5) "k" "a" "b" 1 2 0 10 5 6 (by decide) (by decide)

/-! ## C10: a zero ttl stores an entry with no expiry, in both backends -/

/-- C10: in both cache backends, set(key, value, 0) behaves exactly like a set
with no ttl supplied — the stored entry carries no expiry and remains
retrievable at every later instant. -/
theorem zero_ttl_means_no_expiry (st : InMemoryCache)
    (kv : List (String × (String × Option Nat))) (k v : String) (now later : Nat) :
    cacheSet st k v (some 0) now = cacheSet st k v none now ∧
    (cacheGet (cacheSet st k v (some 0) now) k later).1 = some v ∧
    redisSet kv k v (some 0) now = redisSet kv k v none now ∧
    redisGet (redisSet kv k v (some 0) now) k later = some v := by
  refine ⟨by simp [cacheSet], ?_, by simp [redisSet], ?_⟩
  · unfold cacheGet
    have h : (cacheSet st k v (some 0) now).cache = assocSet st.cache k ⟨v, none⟩ := by
      simp [cacheSet]
    rw [h, assocGet_assocSet]
  · unfold redisGet
    have h : redisSet kv k v (some 0) now = assocSet kv k (v, none) := by
      simp [redisSet]
    rw [h, assocGet_assocSet]

/-! ## Structural lemmas about addToTimeline -/

theorem addToTimeline_maxSize (st : InMemoryCache) (p : TimelinePost) :
    (addToTimeline st p).maxTimelineSize = st.maxTimelineSize := rfl

theorem addToTimeline_timeline (st : InMemoryCache) (p : TimelinePost) :
    (addToTimeline st p).timeline =
      if (List.insertionSort entryGE (st.timeline ++ [⟨p, p.createdAt⟩])).length >
          st.maxTimelineSize
      then (List.insertionSort entryGE (st.timeline ++ [⟨p, p.createdAt⟩])).take
          st.maxTimelineSize
      else List.insertionSort entryGE (st.timeline ++ [⟨p, p.createdAt⟩]) := rfl

theorem insertionSort_append_length (tl : List TimelineEntry) (e : TimelineEntry) :
    (List.insertionSort entryGE (tl ++ [e])).length = tl.length + 1 := by
  rw [(List.perm_insertionSort entryGE _).length_eq]
  simp

theorem addToTimeline_sorted (st : InMemoryCache) (p : TimelinePost) :
    List.Pairwise entryGE (addToTimeline st p).timeline := by
  rw [addToTimeline_timeline]
  split
  · exact List.Pairwise.sublist (List.take_sublist _ _) (List.sorted_insertionSort entryGE _)
  · exact List.sorted_insertionSort entryGE _

theorem addToTimeline_length (st : InMemoryCache) (p : TimelinePost) :
    (addToTimeline st p).timeline.length = min (st.timeline.length + 1) st.maxTimelineSize := by
  rw [addToTimeline_timeline]
  by_cases h : (List.insertionSort entryGE
      (st.timeline ++ [(⟨p, p.createdAt⟩ : TimelineEntry)])).length > st.maxTimelineSize
  · rw [if_pos h, List.length_take, insertionSort_append_length]
    rw [insertionSort_append_length] at h
    omega
  · rw [if_neg h, insertionSort_append_length]
    rw [insertionSort_append_length] at h
    omega

theorem addToTimeline_mem (st : InMemoryCache) (p : TimelinePost) (e : TimelineEntry)
    (he : e ∈ (addToTimeline st p).timeline) :
    e ∈ st.timeline ∨ e = ⟨p, p.createdAt⟩ := by
  rw [addToTimeline_timeline] at he
  have hmem : e ∈ List.insertionSort entryGE (st.timeline ++ [⟨p, p.createdAt⟩]) := by
    split at he
    · exact List.mem_of_mem_take he
    · exact he
  rw [(List.perm_insertionSort entryGE _).mem_iff] at hmem
  rcases List.mem_append.mp hmem with h | h
  · exact Or.inl h
  · right
    simpa using h

theorem addToTimeline_perm_of_lt (st : InMemoryCache) (p : TimelinePost)
    (h : st.timeline.length < st.maxTimelineSize) :
    (addToTimeline st p).timeline.Perm (st.timeline ++ [⟨p, p.createdAt⟩]) := by
  rw [addToTimeline_timeline]
  rw [if_neg (by rw [insertionSort_append_length]; omega)]
  exact List.perm_insertionSort entryGE _

theorem foldl_add_maxSize (l : List TimelinePost) (st : InMemoryCache) :
    (l.foldl addToTimeline st).maxTimelineSize = st.maxTimelineSize := by
  induction l generalizing st with
  | nil => rfl
  | cons p ps ih => rw [List.foldl_cons, ih, addToTimeline_maxSize]

theorem foldl_add_sorted (l : List TimelinePost) (st : InMemoryCache)
    (h : List.Pairwise entryGE st.timeline) :
    List.Pairwise entryGE ((l.foldl addToTimeline st).timeline) := by
  induction l generalizing st with
  | nil => exact h
  | cons p ps ih => exact ih _ (addToTimeline_sorted _ _)

theorem foldl_add_scores (l : List TimelinePost) (st : InMemoryCache)
    (h : ∀ e ∈ st.timeline, e.score = e.post.createdAt) :
    ∀ e ∈ (l.foldl addToTimeline st).timeline, e.score = e.post.createdAt := by
  induction l generalizing st with
  | nil => exact h
  | cons p ps ih =>
    refine ih _ ?_
    intro e he
    rcases addToTimeline_mem _ _ _ he with h1 | h1
    · exact h e h1
    · rw [h1]

theorem foldl_add_perm (l : List TimelinePost) (st : InMemoryCache)
    (h : st.timeline.length + l.length ≤ st.maxTimelineSize) :
    ((l.foldl addToTimeline st).timeline).Perm
      (st.timeline ++ l.map (fun p => ⟨p, p.createdAt⟩)) := by
  induction l generalizing st with
  | nil => simp
  | cons p ps ih =>
    simp only [List.foldl_cons, List.map_cons]
    have hlt : st.timeline.length < st.maxTimelineSize := by
      simp only [List.length_cons] at h
      omega
    have h1 := addToTimeline_perm_of_lt st p hlt
    have hlen1 : (addToTimeline st p).timeline.length = st.timeline.length + 1 := by
      rw [h1.length_eq]
      simp
    have h2 := ih (addToTimeline st p)
      (by
        rw [hlen1, addToTimeline_maxSize]
        simp only [List.length_cons] at h
        omega)
    refine h2.trans ?_
    refine (h1.append_right _).trans ?_
    rw [List.append_assoc, List.singleton_append]

theorem getTimeline_full (st : InMemoryCache) :
    getTimeline st 0 ((st.timeline.length : Int) - 1) = st.timeline.map (fun e => e.post) := by
  have h1 : (st.timeline.length : Int) - 1 + 1 = (st.timeline.length : Int) := by ring
  have h2 : ((0 : Int) ⊓ (st.timeline.length : Int)) = 0 :=
    min_eq_left (by positivity)
  simp only [getTimeline, jsSlice, jsSliceIndex, h1, min_self, h2]
  rw [if_neg (by omega), if_neg (by omega)]
  simp [Int.toNat_ofNat, List.take_length]

/-! ## C2: arbitrary insertion order yields a descending timeline -/

/-- C2: after adding any finite list of entries in any order to a fresh
in-process backend, getTimeline(0, n-1) with n the current cached count
returns every cached entry, the result is sorted by descending creation
timestamp, and — whenever the bound was never exceeded — the cached entries
are exactly the added ones. -/
theorem timeline_returns_sorted (max : Nat) (l : List TimelinePost) :
    getTimeline (l.foldl addToTimeline (emptyCache max)) 0
        ((getTimelineCount (l.foldl addToTimeline (emptyCache max)) : Int) - 1) =
      (l.foldl addToTimeline (emptyCache max)).timeline.map (fun e => e.post) ∧
    List.Pairwise (fun p q => q.createdAt ≤ p.createdAt)
      ((l.foldl addToTimeline (emptyCache max)).timeline.map (fun e => e.post)) ∧
    (l.length ≤ max →
      ((l.foldl addToTimeline (emptyCache max)).timeline.map (fun e => e.post)).Perm l) := by
  refine ⟨getTimeline_full _, ?_, ?_⟩
  · rw [List.pairwise_map]
    have hs := foldl_add_sorted l (emptyCache max) (by simp [emptyCache])
    have hsc := foldl_add_scores l (emptyCache max) (by simp [emptyCache])
    refine hs.imp_of_mem ?_
    intro a b ha hb hr
    rw [← hsc _ ha, ← hsc _ hb]
    exact hr
  · intro hle
    have hp := foldl_add_perm l (emptyCache max) (by simpa [emptyCache] using hle)
    have hm := hp.map (fun e => e.post)
    have hcomp : ((fun (e : TimelineEntry) => e.post) ∘
        (fun p => (⟨p, p.createdAt⟩ : TimelineEntry))) = fun p => p := rfl
    have hr : (((emptyCache max).timeline ++
        l.map (fun p => (⟨p, p.createdAt⟩ : TimelineEntry))).map (fun e => e.post)) = l := by
      simp [emptyCache, List.map_map, hcomp]
    rwa [hr] at hm

/-- Concrete posts used by the witnesses. -/
def pW1 : TimelinePost := ⟨1, 1, "a", "x", 100, []⟩

/-- Concrete post, newer than pW1. -/
def pW2 : TimelinePost := ⟨2, 2, "b", "y", 200, []⟩

/-- Concrete post, newer than pW2. -/
def pW3 : TimelinePost := ⟨3, 3, "c", "z", 300, []⟩

/-- Witness for C2: two posts added oldest-first are returned as exactly those
two posts. -/
theorem timeline_returns_sorted_witness :
    (([pW1, pW2].foldl addToTimeline (emptyCache 5)).timeline.map
      (fun e => e.post)).Perm [pW1, pW2] :=
  (timeline_returns_sorted 5 [pW1, pW2]).2.2 (by decide)

/-! ## C9: the in-process timeline is bounded and evicts the oldest entries -/

theorem removeFirst_length_le {α : Type} (p : α → Bool) (l : List α) :
    (removeFirst p l).length ≤ l.length := by
  induction l with
  | nil => simp [removeFirst]
  | cons x xs ih =>
    unfold removeFirst
    split
    · simp
    · simpa using ih

theorem cacheGet_snd (st : InMemoryCache) (k : String) (now : Nat) :
    ((cacheGet st k now).2).timeline = st.timeline ∧
    ((cacheGet st k now).2).maxTimelineSize = st.maxTimelineSize := by
  unfold cacheGet
  rcases h : assocGet st.cache k with _ | item
  · exact ⟨rfl, rfl⟩
  · rcases item with ⟨v, _ | e⟩
    · exact ⟨rfl, rfl⟩
    · by_cases hn : now > e
      · simp [hn]
      · simp [hn]

theorem applyOp_maxSize (st : InMemoryCache) (op : CacheOp) :
    (applyOp st op).maxTimelineSize = st.maxTimelineSize := by
  cases op with
  | add p => exact addToTimeline_maxSize st p
  | remove pid ts => rfl
  | clear => rfl
  | setKV k v t now => rfl
  | getKV k now => exact (cacheGet_snd st k now).2
  | deleteKV k => rfl
  | flush => rfl

theorem applyOp_timeline_le (st : InMemoryCache) (op : CacheOp)
    (h : st.timeline.length ≤ st.maxTimelineSize) :
    (applyOp st op).timeline.length ≤ (applyOp st op).maxTimelineSize := by
  rw [applyOp_maxSize]
  cases op with
  | add p =>
    show (addToTimeline st p).timeline.length ≤ _
    rw [addToTimeline_length]
    omega
  | remove pid ts => exact le_trans (removeFirst_length_le _ _) h
  | clear => simp [applyOp, clearTimeline]
  | setKV k v t now => exact h
  | getKV k now =>
    show ((cacheGet st k now).2).timeline.length ≤ _
    rw [(cacheGet_snd st k now).1]
    exact h
  | deleteKV k => exact h
  | flush => simp [applyOp, cacheFlush]

theorem foldl_applyOp_maxSize (ops : List CacheOp) (st : InMemoryCache) :
    (ops.foldl applyOp st).maxTimelineSize = st.maxTimelineSize := by
  induction ops generalizing st with
  | nil => rfl
  | cons op rest ih => rw [List.foldl_cons, ih, applyOp_maxSize]

theorem foldl_applyOp_timeline_le (ops : List CacheOp) (st : InMemoryCache)
    (h : st.timeline.length ≤ st.maxTimelineSize) :
    (ops.foldl applyOp st).timeline.length ≤ (ops.foldl applyOp st).maxTimelineSize := by
  induction ops generalizing st with
  | nil => exact h
  | cons op rest ih =>
    rw [List.foldl_cons]
    refine ih _ ?_
    have := applyOp_timeline_le st op h
    omega

/-- C9: after every sequence of client operations on a fresh in-process
backend the timeline holds at most maxTimelineSize entries; and when an
addToTimeline call on a full timeline exceeds the cap, exactly
maxTimelineSize entries are kept — a rearrangement of the old entries plus
the new one minus the dropped ones — and every dropped entry has a score no
newer than every kept entry's. -/
theorem timeline_size_bounded (max : Nat) (ops : List CacheOp)
    (st : InMemoryCache) (p : TimelinePost)
    (hmax : st.maxTimelineSize = max) (hful : max ≤ st.timeline.length) :
    (runOps max ops).timeline.length ≤ max ∧
    ((addToTimeline st p).timeline.length = max ∧
      ∃ dropped : List TimelineEntry,
        (st.timeline ++ [(⟨p, p.createdAt⟩ : TimelineEntry)]).Perm
          ((addToTimeline st p).timeline ++ dropped) ∧
        ∀ a ∈ (addToTimeline st p).timeline, ∀ b ∈ dropped, b.score ≤ a.score) := by
  subst hmax
  constructor
  · have h := foldl_applyOp_timeline_le ops (emptyCache st.maxTimelineSize)
      (by simp [emptyCache])
    rw [foldl_applyOp_maxSize] at h
    exact h
  · have hfl := insertionSort_append_length st.timeline (⟨p, p.createdAt⟩ : TimelineEntry)
    have heq : (addToTimeline st p).timeline =
        (List.insertionSort entryGE
          (st.timeline ++ [(⟨p, p.createdAt⟩ : TimelineEntry)])).take
          st.maxTimelineSize := by
      rw [addToTimeline_timeline, if_pos (by omega)]
    refine ⟨?_, ?_⟩
    · rw [addToTimeline_length]
      omega
    · refine ⟨(List.insertionSort entryGE
        (st.timeline ++ [(⟨p, p.createdAt⟩ : TimelineEntry)])).drop st.maxTimelineSize,
        ?_, ?_⟩
      · refine (List.perm_insertionSort entryGE
          (st.timeline ++ [(⟨p, p.createdAt⟩ : TimelineEntry)])).symm.trans ?_
        rw [heq, List.take_append_drop]
      · intro a ha b hb
        have hp : List.Pairwise entryGE (List.insertionSort entryGE
            (st.timeline ++ [(⟨p, p.createdAt⟩ : TimelineEntry)])) :=
          List.sorted_insertionSort entryGE _
        rw [← List.take_append_drop st.maxTimelineSize (List.insertionSort entryGE
          (st.timeline ++ [(⟨p, p.createdAt⟩ : TimelineEntry)]))] at hp
        rcases List.pairwise_append.mp hp with ⟨_, _, hcross⟩
        rw [heq] at ha
        exact hcross a ha b hb

/-- Witness for C9: the bound holds for a run of three inserts on a backend
capped at two entries. -/
theorem timeline_size_bounded_witness :
    (runOps 2 [CacheOp.add pW1, CacheOp.add pW2, CacheOp.add pW3]).timeline.length ≤ 2 :=
  (timeline_size_bounded 2 [CacheOp.add pW1, CacheOp.add pW2, CacheOp.add pW3]
    (addToTimeline (addToTimeline (emptyCache 2) pW1) pW2) pW3 rfl (by decide)).1

/-! ## C6: removal by (id, timestamp) -/

theorem removeFirst_mem {α : Type} (p : α → Bool) (l : List α) (x : α)
    (hx : x ∈ removeFirst p l) : x ∈ l := by
  induction l with
  | nil => simp [removeFirst] at hx
  | cons y ys ih =>
    unfold removeFirst at hx
    split at hx
    · exact List.mem_cons_of_mem y hx
    · rcases List.mem_cons.mp hx with h | h
      · exact h ▸ List.mem_cons_self y ys
      · exact List.mem_cons_of_mem y (ih h)

theorem removeFirst_of_filter_nil {α : Type} (p : α → Bool) (l : List α)
    (h : l.filter p = []) : removeFirst p l = l := by
  induction l with
  | nil => rfl
  | cons x xs ih =>
    rw [List.filter_cons] at h
    by_cases hx : p x = true
    · simp [hx] at h
    · unfold removeFirst
      simp only [hx] at h ⊢
      rw [if_neg (by simp [hx]), ih h]

theorem removeFirst_length_of_match {α : Type} (p : α → Bool) (l : List α)
    (h : l.filter p ≠ []) : (removeFirst p l).length + 1 = l.length := by
  induction l with
  | nil => simp [List.filter_nil] at h
  | cons x xs ih =>
    rw [List.filter_cons] at h
    by_cases hx : p x = true
    · unfold removeFirst
      rw [if_pos hx]
      rfl
    · simp only [hx, if_false] at h
      unfold removeFirst
      rw [if_neg (by simp [hx])]
      simpa using ih (by simpa using h)

theorem removeFirst_filter_eq_nil {α : Type} (p : α → Bool) (l : List α)
    (h : (l.filter p).length = 1) : (removeFirst p l).filter p = [] := by
  induction l with
  | nil => rfl
  | cons x xs ih =>
    rw [List.filter_cons] at h
    by_cases hx : p x = true
    · simp only [hx, if_true, List.length_cons, Nat.add_left_eq_self] at h
      unfold removeFirst
      rw [if_pos hx]
      exact List.length_eq_zero.mp h
    · simp only [hx, if_false] at h
      unfold removeFirst
      rw [if_neg (by simp [hx]), List.filter_cons, if_neg (by simp [hx])]
      exact ih h

theorem getTimeline_mem (st : InMemoryCache) (a b : Int) (q : TimelinePost)
    (hq : q ∈ getTimeline st a b) : ∃ e ∈ st.timeline, e.post = q := by
  unfold getTimeline jsSlice at hq
  simp only [List.mem_map] at hq
  obtain ⟨e, he, rfl⟩ := hq
  exact ⟨e, List.mem_of_mem_take (List.mem_of_mem_drop he), rfl⟩

/-- C6 counterexample: the claim fails on a reachable timeline holding two
identical entries.  After adding the same post twice, removeFromTimeline with
its (id, timestamp) removes only the first copy, so a subsequent getTimeline
still returns the entry. -/
theorem remove_with_duplicates_keeps_entry :
    ((addToTimeline (addToTimeline (emptyCache 1000) pW1) pW1).timeline.filter
      (entryMatches 1 100)).length = 2 ∧
    getTimeline (removeFromTimeline (addToTimeline (addToTimeline (emptyCache 1000) pW1) pW1)
      1 100) 0 0 = [pW1] := by decide

/-- C6 (amended): on a timeline whose entry scores agree with their posts'
creation timestamps and which holds exactly one entry matching (p, t),
removeFromTimeline(p, t) decrements the count by exactly one and makes the
post absent from every subsequent getTimeline window; when no entry matches,
removeFromTimeline is a no-op. -/
theorem remove_unique_entry (st : InMemoryCache) (p t : Nat)
    (hscore : ∀ e ∈ st.timeline, e.score = e.post.createdAt) :
    ((st.timeline.filter (entryMatches p t)).length = 1 →
      getTimelineCount (removeFromTimeline st p t) + 1 = getTimelineCount st ∧
      ∀ start stop : Int, ∀ q ∈ getTimeline (removeFromTimeline st p t) start stop,
        ¬(q.id = p ∧ q.createdAt = t)) ∧
    (st.timeline.filter (entryMatches p t) = [] → removeFromTimeline st p t = st) := by
  constructor
  · intro hone
    constructor
    · show (removeFirst (entryMatches p t) st.timeline).length + 1 = st.timeline.length
      refine removeFirst_length_of_match _ _ ?_
      intro hnil
      rw [hnil] at hone
      simp at hone
    · intro start stop q hq hqc
      obtain ⟨hqp, hqt⟩ := hqc
      obtain ⟨e, he, hep⟩ := getTimeline_mem _ _ _ _ hq
      have he1 : e ∈ removeFirst (entryMatches p t) st.timeline := he
      have he0 : e ∈ st.timeline := removeFirst_mem _ _ _ he1
      have hsc := hscore e he0
      have h1 : e.post.id = p := by rw [hep]; exact hqp
      have h2 : e.score = t := by rw [hsc, hep]; exact hqt
      have hmatch : entryMatches p t e = true := by simp [entryMatches, h1, h2]
      have hnil := removeFirst_filter_eq_nil (entryMatches p t) st.timeline hone
      have hmem : e ∈ (removeFirst (entryMatches p t) st.timeline).filter (entryMatches p t) :=
        List.mem_filter.mpr ⟨he1, hmatch⟩
      rw [hnil] at hmem
      simp at hmem
  · intro hnil
    have h := removeFirst_of_filter_nil (entryMatches p t) st.timeline hnil
    unfold removeFromTimeline
    rw [h]

/-- Witness for C6 at a one-entry timeline. -/
theorem remove_unique_entry_witness :
    (((addToTimeline (emptyCache 10) pW1).timeline.filter (entryMatches 1 100)).length = 1 →
      getTimelineCount (removeFromTimeline (addToTimeline (emptyCache 10) pW1) 1 100) + 1 =
        getTimelineCount (addToTimeline (emptyCache 10) pW1) ∧
      ∀ start stop : Int, ∀ q ∈ getTimeline
          (removeFromTimeline (addToTimeline (emptyCache 10) pW1) 1 100) start stop,
        ¬(q.id = 1 ∧ q.createdAt = 100)) ∧
    ((addToTimeline (emptyCache 10) pW1).timeline.filter (entryMatches 1 100) = [] →
      removeFromTimeline (addToTimeline (emptyCache 10) pW1) 1 100 =
        addToTimeline (emptyCache 10) pW1) :=
  remove_unique_entry (addToTimeline (emptyCache 10) pW1) 1 100 (by decide)

/-! ## C1 and C3: the ingestion pipeline -/

/-- Concrete authoring user for the pipeline scenarios. -/
def userW : User := ⟨1, "u1", "u1@example.com", "hash", 0, 0⟩

/-- Concrete user table holding only the handle alice. -/
def tableW : List UserSummary := [⟨2, "alice"⟩]

/-- Pipeline environment whose cache insert always rejects; the durable
collaborators always succeed and resolve handles against tableW. -/
def envW : PostServiceEnv :=
  { findById := fun uid => .ok (if uid = 1 then some userW else none)
    create := fun uid c => .ok ⟨7, uid, c, 1000, 1000, false⟩
    findByUsernames := fun names => .ok (findByUsernamesModel tableW names)
    createBatch := fun _ => .ok ()
    addToTimeline := fun _ => .error DomainError.cacheError }

/-- Same environment with a succeeding cache insert. -/
def envM : PostServiceEnv :=
  { envW with addToTimeline := fun _ => .ok () }

theorem finishCreatePost_fst (env : PostServiceEnv) (user : User) (post : Post)
    (m : List UserSummary) (log : List (List String))
    (hcache : ∀ tp, env.addToTimeline tp = .error DomainError.cacheError) :
    (finishCreatePost env user post m log).1 =
      .ok { id := post.id, userId := post.userId, content := post.content
            createdAt := post.createdAt, updatedAt := post.updatedAt
            isDeleted := post.isDeleted
            user := { id := user.id, username := user.username }
            mentions := m } := by
  unfold finishCreatePost
  dsimp only
  rw [hcache]

theorem finishCreatePost_snd (env : PostServiceEnv) (user : User) (post : Post)
    (m : List UserSummary) (log : List (List String)) :
    (finishCreatePost env user post m log).2 = log := by
  unfold finishCreatePost
  dsimp only
  split <;> rfl

/-- C1: when validation passes, the author exists, and every durable
collaborator succeeds, createPost returns the created post successfully even
though every cache addToTimeline call rejects — the cache error never
propagates to the caller. -/
theorem createPost_ok_despite_cache_throw
    (env : PostServiceEnv) (userId : Nat) (content : String)
    (user : User) (post : Post) (mus : List UserSummary)
    (hval : validatePostContent content = .ok ())
    (huser : env.findById userId = .ok (some user))
    (hcreate : env.create userId content = .ok post)
    (hfind : env.findByUsernames (extractMentions content) = .ok mus)
    (hbatch : ∀ d, env.createBatch d = .ok ())
    (hcache : ∀ tp, env.addToTimeline tp = .error DomainError.cacheError) :
    (createPost env userId content).1 =
      .ok { id := post.id, userId := post.userId, content := post.content
            createdAt := post.createdAt, updatedAt := post.updatedAt
            isDeleted := post.isDeleted
            user := { id := user.id, username := user.username }
            mentions := if extractMentions content = [] then [] else mus } := by
  unfold createPost
  rw [hval, huser, hcreate]
  dsimp only
  by_cases hemp : extractMentions content = []
  · have h0 : ¬ (extractMentions content).length > 0 := by rw [hemp]; simp
    rw [if_neg h0, if_pos hemp]
    exact finishCreatePost_fst env user post [] [] hcache
  · have hpos : (extractMentions content).length > 0 := List.length_pos.mpr hemp
    rw [if_pos hpos, hfind, if_neg hemp]
    dsimp only
    by_cases hm : mus.length > 0
    · rw [if_pos hm, hbatch]
      exact finishCreatePost_fst env user post mus _ hcache
    · have hmus : mus = [] := by
        rcases List.eq_nil_or_concat mus with h | ⟨ys, y, rfl⟩
        · exact h
        · simp at hm
      subst hmus
      rw [if_neg hm]
      exact finishCreatePost_fst env user post [] _ hcache

/-- Witness for C1: a concrete post mentioning alice is created despite the
rejecting cache. -/
theorem createPost_ok_despite_cache_throw_witness :
    (createPost envW 1 "hi @alice").1 =
      .ok { id := 7, userId := 1, content := "hi @alice", createdAt := 1000, updatedAt := 1000
            isDeleted := false, user := { id := 1, username := "u1" }
            mentions := if extractMentions "hi @alice" = [] then [] else [⟨2, "alice"⟩] } :=
  createPost_ok_despite_cache_throw envW 1 "hi @alice" userW
    ⟨7, 1, "hi @alice", 1000, 1000, false⟩ [⟨2, "alice"⟩]
    (by decide) (by decide) rfl (by decide) (fun _ => rfl) (fun _ => rfl)

/-- C3 counterexample: a post creation whose content has no mention candidates
succeeds while issuing zero batch resolution calls, not exactly one. -/
theorem zero_mentions_zero_calls :
    (createPost envM 1 "hello").2 = [] ∧ (createPost envM 1 "hello").1.isOk = true := by
  decide

/-- C3 (amended): once the durable post write has succeeded, createPost issues
at most one findByUsernames call — exactly one, carrying all extracted
candidate handles, whenever at least one candidate was extracted, and none
otherwise; in the concrete scenario with one existing and one unknown handle,
the single batch call resolves exactly the existing mention. -/
theorem batch_resolution_at_most_one_call :
    (∀ (env : PostServiceEnv) (userId : Nat) (content : String) (user : User) (post : Post),
      validatePostContent content = .ok () →
      env.findById userId = .ok (some user) →
      env.create userId content = .ok post →
      (createPost env userId content).2 =
        if extractMentions content = [] then [] else [extractMentions content]) ∧
    ((createPost envM 1 "hi @alice and @bob").2 = [["alice", "bob"]] ∧
      (createPost envM 1 "hi @alice and @bob").1 =
        .ok { id := 7, userId := 1, content := "hi @alice and @bob", createdAt := 1000
              updatedAt := 1000, isDeleted := false, user := { id := 1, username := "u1" }
              mentions := [⟨2, "alice"⟩] }) := by
  refine ⟨?_, by decide, by decide⟩
  intro env userId content user post hval huser hcreate
  unfold createPost
  rw [hval, huser, hcreate]
  dsimp only
  by_cases hemp : extractMentions content = []
  · have h0 : ¬ (extractMentions content).length > 0 := by rw [hemp]; simp
    rw [if_neg h0, if_pos hemp]
    exact finishCreatePost_snd env user post [] []
  · have hpos : (extractMentions content).length > 0 := List.length_pos.mpr hemp
    rw [if_pos hpos, if_neg hemp]
    cases hf : env.findByUsernames (extractMentions content) with
    | error e => rfl
    | ok mus =>
      dsimp only
      by_cases hm : mus.length > 0
      · rw [if_pos hm]
        cases hb : env.createBatch (mus.map fun u => ⟨post.id, u.id⟩) with
        | error e => rfl
        | ok u => exact finishCreatePost_snd env user post mus _
      · rw [if_neg hm]
        exact finishCreatePost_snd env user post [] _

/-- Witness for C3: the general clause applied to the concrete environment and
a mention-free content. -/
theorem batch_resolution_at_most_one_call_witness :
    (createPost envM 1 "yo").2 = if extractMentions "yo" = [] then [] else [extractMentions "yo"] :=
  batch_resolution_at_most_one_call.1 envM 1 "yo" userW ⟨7, 1, "yo", 1000, 1000, false⟩
    (by decide) (by decide) rfl

/-! ## C4 and C7: warmup and the timeline read path -/

theorem mkPagination_valid (page limit : Int) (h1 : 1 ≤ page) (h2 : 1 ≤ limit)
    (h3 : limit ≤ 100) :
    mkPagination page limit = .ok ⟨page, limit, (page - 1) * limit⟩ := by
  unfold mkPagination
  rw [if_neg (by omega), if_neg (by omega)]

theorem mkPagination_one (m : Nat) (h1 : 1 ≤ m) (h2 : m ≤ 100) :
    mkPagination 1 (m : Int) = .ok ⟨1, (m : Int), 0⟩ := by
  have hz : ((1 : Int) - 1) * (m : Int) = 0 := by ring
  rw [mkPagination_valid 1 (m : Int) (by omega) (by omega) (by omega), hz]

theorem warmupLoop_counts {σ : Type} (add : TimelinePost → σ → Except DomainError σ)
    (posts : List PostWithUserAndMentions) (st : σ) :
    (warmupLoop add posts st).2.1 + (warmupLoop add posts st).2.2 = posts.length := by
  induction posts generalizing st with
  | nil => rfl
  | cons p ps ih =>
    unfold warmupLoop
    cases h : add (toTimelinePost p) st with
    | ok st1 =>
      dsimp only
      have := ih st1
      rw [List.length_cons]
      omega
    | error e =>
      dsimp only
      have := ih st
      rw [List.length_cons]
      omega

/-- Older concrete durable row. -/
def rowP1 : PostWithUserAndMentions := ⟨1, 1, "p1", 1000, 1000, false, ⟨1, "a"⟩, []⟩

/-- Newer concrete durable row. -/
def rowP2 : PostWithUserAndMentions := ⟨2, 2, "p2", 2000, 2000, false, ⟨2, "b"⟩, []⟩

/-- C4 counterexample: warmup with maxEntries = 101 clears the cache and then
rethrows the pagination validation error instead of returning per-item
counts. -/
theorem warmup_throws_above_pagination_bound :
    warmupCache inMemClear inMemAdd [rowP1] 101 (emptyCache 1000) =
      .error (DomainError.validationError "Limit must be between 1 and 100") := by
  decide

/-- C4 (amended): for maxEntries in the pagination bounds 1..100, once the
initial clear succeeds warmup never throws: it loads the newest non-deleted
posts, replays them oldest-first through the per-item loop whatever the add
oracle does, and the returned counters always sum to the number of loaded
posts; warming the in-process backend from a store holding P1 (older) and P2
(newer) yields getTimeline(0, 1) = [P2, P1]. -/
theorem warmup_replays_oldest_first {σ : Type} (clear : σ → Except DomainError σ)
    (add : TimelinePost → σ → Except DomainError σ)
    (store : List PostWithUserAndMentions) (m : Nat) (st st1 : σ)
    (hm1 : 1 ≤ m) (hm2 : m ≤ 100) (hclear : clear st = .ok st1) :
    (warmupCache clear add store m st =
        .ok (warmupLoop add ((findAllModel store ⟨1, (m : Int), 0⟩).1.reverse) st1) ∧
      ∀ (posts : List PostWithUserAndMentions) (st0 : σ),
        (warmupLoop add posts st0).2.1 + (warmupLoop add posts st0).2.2 = posts.length) ∧
    (warmupCache inMemClear inMemAdd [rowP1, rowP2] 100 (emptyCache 1000)).map
        (fun r => getTimeline r.1 0 1) =
      .ok [toTimelinePost rowP2, toTimelinePost rowP1] := by
  refine ⟨⟨?_, fun posts st0 => warmupLoop_counts add posts st0⟩, by decide⟩
  unfold warmupCache
  rw [hclear, mkPagination_one m hm1 hm2]

/-- Witness for C4: warming from the two-row store places the newer post at
rank 0. -/
theorem warmup_replays_oldest_first_witness :
    (warmupCache inMemClear inMemAdd [rowP1, rowP2] 100 (emptyCache 1000)).map
        (fun r => getTimeline r.1 0 1) =
      .ok [toTimelinePost rowP2, toTimelinePost rowP1] :=
  (warmup_replays_oldest_first inMemClear inMemAdd [rowP1, rowP2] 100 (emptyCache 1000)
    (clearTimeline (emptyCache 1000)) (by omega) (by omega) rfl).2

/-- Read environment whose cache always answers empty, over a one-row store. -/
def envC7 : TimelineReadEnv := ⟨fun _ _ => .ok [], .ok 0, [rowP1]⟩

/-- Read environment whose cache holds one entry. -/
def envC7w : TimelineReadEnv := ⟨fun _ _ => .ok [pW1], .ok 1, []⟩

/-- C7 counterexample: with an empty cache answer and limit = 101 the read
path throws the pagination validation error instead of serving the reshaped
durable query. -/
theorem timeline_read_throws_above_limit :
    serviceGetTimeline envC7 1 101 =
      .error (DomainError.validationError "Limit must be between 1 and 100") := by
  decide

/-- C7 (amended): a non-empty cache answer over the rank window
[(page-1)*limit, (page-1)*limit + limit - 1] is served with the cache's own
count; an empty cache answer — genuine or a swallowed failure — falls back to
the durable query, which for page ≥ 1 and 1 ≤ limit ≤ 100 is the paginated
store reshaped into the timeline projection. -/
theorem timeline_read_cache_first (env : TimelineReadEnv) (page limit : Int)
    (l : List TimelinePost) (c : Nat) (e : DomainError) :
    (env.cacheGetTimeline ((page - 1) * limit) ((page - 1) * limit + limit - 1) = .ok l →
      l ≠ [] → env.cacheCount = .ok c →
      serviceGetTimeline env page limit =
        .ok { posts := l, total := c
              hasMore := decide ((page - 1) * limit + limit < (c : Int)) }) ∧
    (env.cacheGetTimeline ((page - 1) * limit) ((page - 1) * limit + limit - 1) = .ok [] →
      serviceGetTimeline env page limit = timelineDbFallback env page limit) ∧
    (env.cacheGetTimeline ((page - 1) * limit) ((page - 1) * limit + limit - 1) = .error e →
      serviceGetTimeline env page limit = timelineDbFallback env page limit) ∧
    (1 ≤ page → 1 ≤ limit → limit ≤ 100 →
      timelineDbFallback env page limit =
        .ok { posts := (findAllModel env.store ⟨page, limit, (page - 1) * limit⟩).1.map
                toTimelinePost
              total := (findAllModel env.store ⟨page, limit, (page - 1) * limit⟩).2
              hasMore := decide (page * limit <
                ((findAllModel env.store ⟨page, limit, (page - 1) * limit⟩).2 : Int)) }) := by
  refine ⟨?_, ?_, ?_, ?_⟩
  · intro hc hne hcount
    unfold serviceGetTimeline
    dsimp only
    rw [hc]
    dsimp only
    rw [if_pos (by exact List.length_pos.mpr hne), hcount]
  · intro hc
    unfold serviceGetTimeline
    dsimp only
    rw [hc]
    dsimp only
    rw [if_neg (by simp)]
  · intro hc
    unfold serviceGetTimeline
    dsimp only
    rw [hc]
  · intro h1 h2 h3
    unfold timelineDbFallback
    rw [mkPagination_valid page limit h1 h2 h3]
    dsimp only
    rfl

/-- Witness for C7: a one-entry cache answer is served directly. -/
theorem timeline_read_cache_first_witness :
    serviceGetTimeline envC7w 1 20 =
      .ok { posts := [pW1], total := 1
            hasMore := decide (((1 : Int) - 1) * 20 + 20 < ((1 : Nat) : Int)) } :=
  (timeline_read_cache_first envC7w 1 20 [pW1] 1 DomainError.cacheError).1 rfl
    (by decide) rfl

end TrueTwt
